import Mathlib

/-!
# Verification of the fsfix test-fixture library

A shallow embedding of the `fsfix` Go package: a test-fixture helper that
builds and tears down temporary directory trees.  Paths are modelled as
lists of characters (`PathStr`), mirroring Go strings; the Go standard
library path helpers used by the package (`filepath.Clean`, `filepath.IsAbs`,
`filepath.Join`, `filepath.Dir`, `filepath.Rel` — re-exported by the `go-dt`
dependency as `DirPath.Clean`, `DirPath.IsAbs`, `DirPathJoin`,
`FilepathJoin`, `Filepath.Dir`, `DirPath.Rel`) are translated for the Unix
flavour (separator `/`, empty volume names).

Filesystem effects are modelled as traces: materialization of a fixture
tree produces a list of `FsOp` operations in the order the Go code issues
the underlying filesystem calls.
-/

namespace Fsfix

/-- A Go string value (here always a path or file content), as its
character sequence. -/
abbrev PathStr := List Char

/-- `filepath.IsAbs` on Unix: the path begins with the separator. -/
def isAbsL (p : PathStr) : Bool :=
  match p with
  | '/' :: _ => true
  | _ => false

/-- Split a character sequence at every separator, as `strings.Split`
(and the segment scanning inside Go's path routines) does: the empty
string yields one empty segment, and every separator starts a new
segment. -/
def splitSeg : PathStr → List PathStr
  | [] => [[]]
  | c :: rest =>
    if c = '/' then [] :: splitSeg rest
    else
      match splitSeg rest with
      | [] => [[c]]
      | s :: ss => (c :: s) :: ss

/-- Join segments with the separator (inverse of `splitSeg` on
separator-free segments). -/
def joinSegs : List PathStr → PathStr
  | [] => []
  | [s] => s
  | s :: rest => s ++ '/' :: joinSegs rest

/-- One step of Go's `filepath.Clean` segment scan, over an accumulator
kept in reverse order: empty and `.` segments are dropped; `..` pops the
last kept segment, is dropped at the root of a rooted path, and is kept
when an unrooted path climbs above its start. -/
def cleanStep (rooted : Bool) (acc : List PathStr) (seg : PathStr) : List PathStr :=
  if seg = [] then acc
  else if seg = ['.'] then acc
  else if seg = ['.', '.'] then
    match acc with
    | [] => if rooted then [] else [['.', '.']]
    | a :: rest => if a = ['.', '.'] then ['.', '.'] :: a :: rest else rest
  else seg :: acc

/-- The segment list of `filepath.Clean` applied to the given raw
segments. -/
def cleanSegments (rooted : Bool) (segs : List PathStr) : List PathStr :=
  (segs.foldl (cleanStep rooted) []).reverse

/-- Reassemble a cleaned path from its rootedness and segments, as
`filepath.Clean` does: a rooted path keeps its leading separator, an
unrooted path with no segments left becomes `.`. -/
def renderPath (rooted : Bool) (segs : List PathStr) : PathStr :=
  if rooted then '/' :: joinSegs segs
  else if segs = [] then ['.'] else joinSegs segs

/-- The cleaned segment list of a raw path. -/
def pathSegsL (p : PathStr) : List PathStr :=
  cleanSegments (isAbsL p) (splitSeg p)

/-- `filepath.Clean` for Unix paths. -/
def cleanL (p : PathStr) : PathStr :=
  renderPath (isAbsL p) (pathSegsL p)

/-- `filepath.Join` of two elements: non-empty elements are joined with
the separator and the result is cleaned; Go returns the empty string when
every element is empty. -/
def joinL (a b : PathStr) : PathStr :=
  if a = [] then
    if b = [] then [] else cleanL b
  else if b = [] then cleanL a
  else cleanL (a ++ '/' :: b)

/-- `filepath.Dir` for Unix paths: everything up to (and including) the
final separator, cleaned; a path with no separator has directory `.`. -/
def dirOfL (p : PathStr) : PathStr :=
  cleanL ((p.reverse.dropWhile (fun c => c ≠ '/')).reverse)

/-- Strip the longest common segment prefix from two segment lists,
returning what remains of each (the comparison loop of
`filepath.Rel`). -/
def dropCommon : List PathStr → List PathStr → List PathStr × List PathStr
  | x :: xs, y :: ys =>
    if x = y then dropCommon xs ys else (x :: xs, y :: ys)
  | xs, ys => (xs, ys)

/-- `filepath.Rel base targ` for Unix paths: both arguments are cleaned;
equal cleaned paths are related by `.`; one absolute and one relative
path cannot be related; otherwise the shared segment prefix is dropped
and every remaining base segment becomes a `..` step (refusing when the
first differing base segment is itself `..`, since the result would then
depend on the working directory). -/
def relL (base targ : PathStr) : Option PathStr :=
  let b := cleanL base
  let t := cleanL targ
  if t = b then some ['.']
  else if (isAbsL b) ≠ (isAbsL t) then none
  else
    let p := dropCommon (pathSegsL base) (pathSegsL targ)
    if p.1.head? = some ['.', '.'] then none
    else some (joinSegs (List.replicate p.1.length ['.', '.'] ++ p.2))

/-- `PathSegments.HasDotDotPrefix` of the `go-dt` dependency.  Modelled
from the spec: the relation "begins with a parent-directory escape
segment", i.e. the path is `..` or starts with `../`. -/
def hasDotDotPrefixL (p : PathStr) : Bool :=
  p = ['.', '.'] || List.isPrefixOf ['.', '.', '/'] p

/-!
## Fixture data model

Translated from `file_fixture.go`, `dir_fixture.go` and `root_fixture.go`.
Go `int` permission values are modelled as `Int` (so zero, negative and
out-of-range values are all representable); `time.Time` modification
times are modelled as `Nat` with `0` playing the role of the zero time
(`IsZero`).
-/

/-- The mutable state of a `FileFixture` as observed by a content
function: every field of the Go struct except the function-valued
`ContentFunc` itself (which cannot occur in its own argument type) and
the `Parent`/`t` back-references. -/
structure FileState where
  filepath : PathStr
  name : PathStr
  content : PathStr
  permissions : Int
  dirPermissions : Int
  modifiedTime : Nat
  doNotCreate : Bool
  created : Bool

/-- `ContentFunc`: a function from the file fixture's own state to the
content string, invoked at creation time. -/
abbrev ContentFunc := FileState → PathStr

/-- A declared (not yet materialized) `FileFixture`. -/
structure FileFix where
  name : PathStr
  content : PathStr
  contentFunc : Option ContentFunc
  permissions : Int
  dirPermissions : Int
  modifiedTime : Nat
  doNotCreate : Bool

/-- `FileFixtureArgs` with Go zero values as defaults (the `Name` and
`Parent` fields of the Go struct are not read by `newFileFixture` and are
omitted). -/
structure FileFixtureArgs where
  content : PathStr := []
  contentFunc : Option ContentFunc := none
  modifiedTime : Nat := 0
  permissions : Int := 0
  dirPermissions : Int := 0
  doNotCreate : Bool := false

/-- `newFileFixture`: a `nil` args pointer is replaced by the zero-valued
struct; zero permissions default to `0644` (420) and zero directory
permissions to `0755` (493). -/
def newFileFixture (name : PathStr) (args? : Option FileFixtureArgs) : FileFix :=
  let args := args?.getD {}
  let args := if args.permissions = 0 then { args with permissions := 420 } else args
  let args := if args.dirPermissions = 0 then { args with dirPermissions := 493 } else args
  { name := name
    content := args.content
    contentFunc := args.contentFunc
    permissions := args.permissions
    dirPermissions := args.dirPermissions
    modifiedTime := args.modifiedTime
    doNotCreate := args.doNotCreate }

/-- A directory-tree node: a `DirFixture`, or a `RepoFixture` when
`isRepo` is true (`RepoFixture` embeds `DirFixture` and only adds the
`.git` marker step on creation). -/
inductive DirNode where
  | node (isRepo : Bool) (name : PathStr) (permissions : Int) (modifiedTime : Nat)
         (files : List FileFix) (children : List DirNode)

/-- `DirFixtureArgs` with Go zero values as defaults. -/
structure DirFixtureArgs where
  files : List FileFix := []
  permissions : Int := 0
  modifiedTime : Nat := 0

/-- `newDirFixture`: `nil` args become the zero-valued struct and zero
permissions default to `0755`. -/
def newDirFixture (name : PathStr) (args? : Option DirFixtureArgs) : DirNode :=
  let args := args?.getD {}
  let args := if args.permissions = 0 then { args with permissions := 493 } else args
  .node false name args.permissions args.modifiedTime args.files []

/-- `RepoFixtureArgs` with Go zero values as defaults. -/
structure RepoFixtureArgs where
  files : List FileFix := []
  permissions : Int := 0
  modifiedTime : Nat := 0

/-- `newRepoFixture`: defaults permissions to `0755` and builds the
embedded `DirFixture`; note that the Go constructor does not forward
`args.Files` to the embedded fixture, so a repo node starts with no
files. -/
def newRepoFixture (name : PathStr) (args? : Option RepoFixtureArgs) : DirNode :=
  let args := args?.getD {}
  let args := if args.permissions = 0 then { args with permissions := 493 } else args
  .node true name args.permissions args.modifiedTime [] []

/-- `RootFixture` in its builder phase: the declared tree before
`Create` runs. -/
structure RootFix where
  dirPrefixName : PathStr
  files : List FileFix
  children : List DirNode

/-- `NewRootFixture`: records the prefix and starts with empty fixture
lists; performs no filesystem access. -/
def newRootFixture (p : PathStr) : RootFix :=
  { dirPrefixName := p, files := [], children := [] }

/-- `RootFixture.AddFileFixture`: constructs the child with
`newFileFixture`, appends it to the root's file list and returns it;
pure bookkeeping, no filesystem access. -/
def addFileFixture (rf : RootFix) (name : PathStr) (args? : Option FileFixtureArgs) :
    RootFix × FileFix :=
  let ff := newFileFixture name args?
  ({ rf with files := rf.files ++ [ff] }, ff)

/-- `RootFixture.AddDirFixture`. -/
def addDirFixture (rf : RootFix) (name : PathStr) (args? : Option DirFixtureArgs) :
    RootFix × DirNode :=
  let df := newDirFixture name args?
  ({ rf with children := rf.children ++ [df] }, df)

/-- `RootFixture.AddRepoFixture`. -/
def addRepoFixture (rf : RootFix) (name : PathStr) (args? : Option RepoFixtureArgs) :
    RootFix × DirNode :=
  let pf := newRepoFixture name args?
  ({ rf with children := rf.children ++ [pf] }, pf)

/-!
## Materialization as a filesystem trace

Materializing the tree issues filesystem calls; the embedding records
them in order as a list of `FsOp`.  `report` stands for a non-fatal
`t.Errorf` diagnostic (the permissions-not-set check); in the trace model
filesystem calls themselves succeed.
-/

/-- One filesystem operation issued during materialization. -/
inductive FsOp where
  | mkdirTemp (pattern : PathStr)
  | mkdirAll (path : PathStr) (perm : Int)
  | writeFile (path : PathStr) (content : PathStr) (perm : Int)
  | chtimes (path : PathStr) (mtime : Nat)
  | report (path : PathStr)
deriving DecidableEq

/-- The state of a file fixture right after `FileFixture.Create` assigns
`created`, `Parent` and `Filepath` (`Filepath = FilepathJoin(pf.Dir(),
ff.Name)`) and before `createFile` runs. -/
def resolvedFileState (parentDir : PathStr) (ff : FileFix) : FileState :=
  { filepath := joinL parentDir ff.name
    name := ff.name
    content := ff.content
    permissions := ff.permissions
    dirPermissions := ff.dirPermissions
    modifiedTime := ff.modifiedTime
    doNotCreate := ff.doNotCreate
    created := true }

/-- `FileFixture.createFile`: skipped entirely for `DoNotCreate`;
otherwise report a zero permission value, ensure the parent directory
exists, let a content function (if any) overwrite `Content` with the
fixture's resolved state in scope, write the file, and finally apply a
non-zero modification time. -/
def createFile (st : FileState) (cf : Option ContentFunc) : FileState × List FsOp :=
  if st.doNotCreate then (st, [])
  else
    let permOps : List FsOp := if st.permissions = 0 then [.report st.filepath] else []
    let dirOps : List FsOp := [.mkdirAll (dirOfL st.filepath) st.dirPermissions]
    let st1 := match cf with
      | some f => { st with content := f st }
      | none => st
    let writeOps : List FsOp := [.writeFile st1.filepath st1.content st1.permissions]
    let timeOps : List FsOp :=
      if st1.modifiedTime ≠ 0 then [.chtimes st1.filepath st1.modifiedTime] else []
    (st1, permOps ++ dirOps ++ writeOps ++ timeOps)

/-- `FileFixture.Create`: resolve the fixture's own path against the
parent's directory, then run `createFile`. -/
def fileCreate (parentDir : PathStr) (ff : FileFix) : FileState × List FsOp :=
  createFile (resolvedFileState parentDir ff) ff.contentFunc

/-- A materialized file leaf: its final state plus its relative path
(`FileFixture.RelativePath() = FilepathJoin(Parent.RelativePath(),
Name)`). -/
structure MFile where
  st : FileState
  rel : PathStr

/-- A materialized directory/repository node: resolved absolute path
`dir`, relative path `rel` (`RelativePath() =
DirPathJoin(Parent.RelativePath(), Name)`), materialized files and
children. -/
inductive MDir where
  | node (isRepo : Bool) (name : PathStr) (dir : PathStr) (rel : PathStr)
         (files : List MFile) (children : List MDir)

/-- The `.git` marker segment created by `RepoFixture.createWithParent`. -/
def gitSeg : PathStr := ".git".data

mutual
/-- `DirFixture.createWithParent` (and, for `isRepo`,
`RepoFixture.createWithParent` which runs the embedded fixture's
creation first and then creates the `.git` marker with permissions
`0755`): resolve `dir` against the parent, report a zero permission
value, create the directory, then this node's files, then its
children. -/
def createDir (parentDir parentRel : PathStr) : DirNode → MDir × List FsOp
  | .node isRepo name perms _mtime files children =>
    let d := joinL parentDir name
    let r := joinL parentRel name
    let permOps : List FsOp := if perms = 0 then [.report d] else []
    let mkOps : List FsOp := [.mkdirAll d perms]
    let fl := createFiles d r files
    let ch := createChildren d r children
    let gitOps : List FsOp := if isRepo then [.mkdirAll (joinL d gitSeg) 493] else []
    (.node isRepo name d r fl.1 ch.1, permOps ++ mkOps ++ fl.2 ++ ch.2 ++ gitOps)

/-- The `for _, file := range df.FileFixtures { file.Create(t, df) }`
loop, in declared order. -/
def createFiles (d r : PathStr) : List FileFix → List MFile × List FsOp
  | [] => ([], [])
  | f :: fs =>
    let one := fileCreate d f
    let rest := createFiles d r fs
    ({ st := one.1, rel := joinL r f.name } :: rest.1, one.2 ++ rest.2)

/-- The `for _, child := range df.ChildFixtures {
child.createWithParent(t, df) }` loop, in declared order. -/
def createChildren (d r : PathStr) : List DirNode → List MDir × List FsOp
  | [] => ([], [])
  | c :: cs =>
    let one := createDir d r c
    let rest := createChildren d r cs
    (one.1 :: rest.1, one.2 ++ rest.2)
end

/-- A materialized root fixture. -/
structure MRoot where
  tempDir : PathStr
  files : List MFile
  children : List MDir

/-- `RootFixture.RelativePath()` is always `"."`. -/
def rootRelPath : PathStr := ['.']

/-- `RootFixture.Create`: make the unique temporary directory (the path
the OS chooses is the `osTempDir` parameter; the pattern passed to
`MkdirTemp` is `DirPrefix + "-*"`), then walk all child fixtures, then
all root-level file fixtures — note the source walks children before
files at the root. -/
def rootCreate (osTempDir : PathStr) (rf : RootFix) : MRoot × List FsOp :=
  let mkOps : List FsOp := [.mkdirTemp (rf.dirPrefixName ++ "-*".data)]
  let ch := createChildren osTempDir rootRelPath rf.children
  let fl := createFiles osTempDir rootRelPath rf.files
  ({ tempDir := osTempDir, files := fl.1, children := ch.1 }, mkOps ++ ch.2 ++ fl.2)

/-!
## Accessor guards (`ensureCreated`) and test-failure outcomes

`t.Fatalf` marks the test failed and aborts the current test (but not
the test process); `t.Errorf` marks the test failed and continues.
Accessors that call `ensureCreated` are modelled in `Except`, with
`.error` the `t.Fatalf` abort.
-/

/-- A fatal abort of the current test (`t.Fatalf`), carrying the
fixture name from the format arguments. -/
inductive TestAbort where
  | fatal (msg : PathStr)
deriving DecidableEq

/-- Accessor-relevant state of a `RootFixture`. -/
structure RootAccess where
  dirPrefixName : PathStr
  tempDir : PathStr
  created : Bool

/-- `RootFixture.ensureCreated`. -/
def rootEnsureCreated (r : RootAccess) : Except TestAbort Unit :=
  if r.created then .ok () else .error (.fatal r.dirPrefixName)

/-- `RootFixture.Dir`. -/
def rootDirAcc (r : RootAccess) : Except TestAbort PathStr := do
  rootEnsureCreated r
  return r.tempDir

/-- `RootFixture.TempDir`. -/
def rootTempDirAcc (r : RootAccess) : Except TestAbort PathStr := do
  rootEnsureCreated r
  return r.tempDir

/-- The `ensureCreated` gate at the top of `RootFixture.Cleanup`. -/
def rootCleanupGate (r : RootAccess) : Except TestAbort Unit :=
  rootEnsureCreated r

/-- The `ensureCreated` gate at the top of `RootFixture.RemoveFiles`. -/
def rootRemoveFilesGate (r : RootAccess) : Except TestAbort Unit :=
  rootEnsureCreated r

/-- Accessor-relevant state of a `DirFixture`. -/
structure DirAccess where
  name : PathStr
  dir : PathStr
  created : Bool

/-- `DirFixture.ensureCreated`. -/
def dirEnsureCreated (d : DirAccess) : Except TestAbort Unit :=
  if d.created then .ok () else .error (.fatal d.name)

/-- `DirFixture.Dir`. -/
def dirDirAcc (d : DirAccess) : Except TestAbort PathStr := do
  dirEnsureCreated d
  return d.dir

/-- `DirFixture.MakeDir`. -/
def dirMakeDirAcc (d : DirAccess) (fp : PathStr) : Except TestAbort PathStr := do
  dirEnsureCreated d
  return joinL d.dir fp

/-- Accessor-relevant state of a `RepoFixture` (its own `created` flag,
distinct from the embedded `DirFixture`'s). -/
structure RepoAccess where
  name : PathStr
  dir : PathStr
  created : Bool

/-- `RepoFixture.ensureCreated`. -/
def repoEnsureCreated (p : RepoAccess) : Except TestAbort Unit :=
  if p.created then .ok () else .error (.fatal p.name)

/-- `RepoFixture.MakeDir`. -/
def repoMakeDirAcc (p : RepoAccess) (fp : PathStr) : Except TestAbort PathStr := do
  repoEnsureCreated p
  return joinL p.dir fp

/-- `FileFixture.ensureCreated`. -/
def fileEnsureCreated (f : FileState) : Except TestAbort Unit :=
  if f.created then .ok () else .error (.fatal f.name)

/-!
## The guarded removal operation

`RootFixture.RemoveFiles` (the guarded variant): a chain of refusal
checks in front of the recursive delete, each silently jumping to the
end.  On Unix `VolumeName` is empty, so the filesystem root computed for
the path is `/`, and the platform temp root is whatever `os.TempDir`
returns (the `osTmpDir` parameter).  `removeFilesProceeds` is true
exactly when control reaches the `RemoveAll` call.  (The `ensureCreated`
gate that precedes the chain is modelled by `rootRemoveFilesGate`.)
-/

/-- Does `RemoveFiles` reach its recursive delete?  A line-by-line
translation of the guard chain. -/
def removeFilesProceeds (osTmpDir tempDirRaw : PathStr) : Bool :=
  if tempDirRaw = [] then false
  else
    let tempDir := cleanL tempDirRaw
    if ¬ isAbsL tempDir then false
    else
      let rootDir : PathStr := ['/']
      if tempDir = rootDir then false
      else
        let tmpRoot := cleanL osTmpDir
        if tempDir = tmpRoot then false
        else
          match relL tmpRoot tempDir with
          | none => false
          | some r =>
            if r = ['.'] then false
            else if hasDotDotPrefixL r then false
            else true

/-- Modelled from the spec: "proceeds only for a normalized absolute
path strictly nested under the platform temp root" — the cleaned path is
absolute, the temp root's cleaned segments are a prefix of its cleaned
segments, and it is not the temp root itself. -/
def strictlyUnderTempRoot (osTmpDir tempDirRaw : PathStr) : Bool :=
  isAbsL (cleanL tempDirRaw) &&
  List.isPrefixOf (pathSegsL osTmpDir) (pathSegsL tempDirRaw) &&
  decide (cleanL tempDirRaw ≠ cleanL osTmpDir)

/-!
## Failure outcomes of the cleanup paths

Both removal entry points are parameterized by whether the underlying
recursive removal fails.
-/

/-- What a test observes from a cleanup path. -/
inductive TestOutcome where
  | passed
  | failedContinue
  | failedStopTest
  | panicked
  | processAborted
deriving DecidableEq

/-- The `cleanupFunc` closure registered by `RootFixture.Create`: a
failing `RemoveAll` is reported with `t.Errorf` (failure recorded, test
continues). -/
def cleanupFuncRun (removeAllFails : Bool) : TestOutcome :=
  if removeAllFails then .failedContinue else .passed

/-- The removal tail of `RootFixture.RemoveFiles`: when the guard lets
the delete proceed and `RemoveAll` fails, `t.Fatalf` records the failure
and stops the current test; otherwise nothing is reported. -/
def removeFilesRun (osTmpDir tempDirRaw : PathStr) (removeAllFails : Bool) : TestOutcome :=
  if removeFilesProceeds osTmpDir tempDirRaw && removeAllFails then .failedStopTest
  else .passed

/-!
## Statement-level predicates and concrete inputs
-/

/-- The path invariant claimed for a materialized file leaf under a node
with resolved path `d` and relative path `r`. -/
def mfileInv (d r : PathStr) (mf : MFile) : Bool :=
  (mf.st.filepath == joinL d mf.st.name) && (mf.rel == joinL r mf.st.name)

mutual
/-- The path invariant for a materialized node under a parent with
resolved path `pd` and relative path `pr`, propagated through the whole
subtree. -/
def mdirInv (pd pr : PathStr) : MDir → Bool
  | .node _ name d r files children =>
    (d == joinL pd name) && (r == joinL pr name) &&
    files.all (mfileInv d r) && mdirsInv d r children

/-- `mdirInv` over a list of siblings. -/
def mdirsInv (d r : PathStr) : List MDir → Bool
  | [] => true
  | c :: cs => mdirInv d r c && mdirsInv d r cs
end

/-- The files-then-children ordering that claim C7 asserts for the root
node: the root trace would have to be the temp-directory creation
followed by the root-level file operations and only then the child
operations. -/
abbrev rootFilesThenChildren (osTempDir : PathStr) (rf : RootFix) : Prop :=
  (rootCreate osTempDir rf).2 =
    FsOp.mkdirTemp (rf.dirPrefixName ++ "-*".data) ::
      ((createFiles osTempDir rootRelPath rf.files).2 ++
       (createChildren osTempDir rootRelPath rf.children).2)

/-- Does `b` occur immediately after `a` somewhere in the trace? -/
def immediatelyAfter (a b : FsOp) : List FsOp → Bool
  | x :: y :: rest =>
    (decide (x = a) && decide (y = b)) || immediatelyAfter a b (y :: rest)
  | _ => false

/-- A concrete root fixture with one file and one child directory, used
to exhibit the root's children-before-files walk order. -/
def cexRoot : RootFix :=
  { dirPrefixName := "my-test".data
    files := [newFileFixture "a.txt".data none]
    children := [newDirFixture "d".data none] }

/-- A concrete repository node holding one file, used to exhibit that
the `.git` marker is created after the repository's files rather than
immediately after the repository directory. -/
def cexRepo : DirNode :=
  DirNode.node true "r".data 493 0 [newFileFixture "f.txt".data none] []

/-- A segment of a cleaned rooted path: non-empty, not `.`, not `..`,
and separator-free. -/
def goodSeg (s : PathStr) : Prop :=
  s ≠ [] ∧ s ≠ ['.'] ∧ s ≠ ['.', '.'] ∧ '/' ∉ s

/-- A segment of any cleaned path: non-empty and separator-free (an
unrooted cleaned path may keep leading `..` segments). -/
def okSeg (s : PathStr) : Prop :=
  s ≠ [] ∧ '/' ∉ s

-- Sanity checks of the path layer against Go's documented behaviour.
example : cleanL "".data = ".".data := by decide
example : cleanL "/".data = "/".data := by decide
example : cleanL "/tmp/x/..".data = "/tmp".data := by decide
example : cleanL "/../a".data = "/a".data := by decide
example : cleanL "a/../..".data = "..".data := by decide
example : cleanL "./a//b/".data = "a/b".data := by decide
example : joinL ".".data "widgets".data = "widgets".data := by decide
example : joinL "/tmp/x".data "f.txt".data = "/tmp/x/f.txt".data := by decide
example : dirOfL "/tmp/x/f.txt".data = "/tmp/x".data := by decide
example : dirOfL "a".data = ".".data := by decide
example : dirOfL "/a".data = "/".data := by decide
example : relL "/tmp".data "/tmp/x".data = some "x".data := by decide
example : relL "/tmp".data "/tmpfoo".data = some "../tmpfoo".data := by decide
example : relL "/tmp".data "/".data = some "..".data := by decide
example : relL "/tmp".data "rel".data = none := by decide
example : relL "/a/b".data "/c".data = some "../../c".data := by decide
example : relL "/".data "/a".data = some "a".data := by decide

-- Guard sanity checks.
example : removeFilesProceeds "/tmp".data "/tmp/my-test-123".data = true := by decide
example : removeFilesProceeds "/tmp".data "".data = false := by decide
example : removeFilesProceeds "/tmp".data "relative/dir".data = false := by decide
example : removeFilesProceeds "/tmp".data "/".data = false := by decide
example : removeFilesProceeds "/tmp".data "/tmp".data = false := by decide
example : removeFilesProceeds "/tmp".data "/tmp/../etc".data = false := by decide
example : removeFilesProceeds "/tmp".data "/home/u".data = false := by decide
example : removeFilesProceeds "/tmp".data "/tmpfoo".data = false := by decide
example : removeFilesProceeds "/tmp".data "/tmp/x/..".data = false := by decide
example : removeFilesProceeds "/tmp".data "/tmp/x/y".data = true := by decide

-- End-to-end walk sanity check (spec scenario A): root "my-test" with a
-- repo "proj" holding file "main.txt" content "hi".
example :
    (rootCreate "/tmp/my-test-1".data
        { dirPrefixName := "my-test".data
          files := []
          children := [DirNode.node true "proj".data 493 0
            [newFileFixture "main.txt".data (some { content := "hi".data })] []] }).2 =
      [FsOp.mkdirTemp "my-test-*".data,
       FsOp.mkdirAll "/tmp/my-test-1/proj".data 493,
       FsOp.mkdirAll "/tmp/my-test-1/proj".data 493,
       FsOp.writeFile "/tmp/my-test-1/proj/main.txt".data "hi".data 420,
       FsOp.mkdirAll "/tmp/my-test-1/proj/.git".data 493] := by decide

/-!
## Path-layer lemmas

Support for the deletion-guard theorem: structure of `splitSeg`,
`joinSegs`, `cleanSegments`, and the round trip between cleaned segment
lists and rendered paths.
-/

theorem splitSeg_ne_nil : ∀ p : PathStr, splitSeg p ≠ []
  | [] => by simp [splitSeg]
  | c :: rest => by
    simp only [splitSeg]
    split
    · simp
    · split <;> simp

theorem mem_splitSeg_no_slash : ∀ (p : PathStr), ∀ s ∈ splitSeg p, '/' ∉ s
  | [] => by simp [splitSeg]
  | c :: rest => by
    intro s hs
    simp only [splitSeg] at hs
    by_cases hc : c = '/'
    · rw [if_pos hc] at hs
      rcases List.mem_cons.mp hs with h | h
      · subst h; simp
      · exact mem_splitSeg_no_slash rest s h
    · rw [if_neg hc] at hs
      cases hsr : splitSeg rest with
      | nil => exact absurd hsr (splitSeg_ne_nil rest)
      | cons s0 ss =>
        rw [hsr] at hs
        rcases List.mem_cons.mp hs with h | h
        · subst h
          intro hm
          rcases List.mem_cons.mp hm with h' | h'
          · exact hc h'.symm
          · exact mem_splitSeg_no_slash rest s0 (hsr ▸ List.mem_cons_self s0 ss) h'
        · exact mem_splitSeg_no_slash rest s (hsr ▸ List.mem_cons_of_mem s0 h)

theorem splitSeg_no_slash_self : ∀ (p : PathStr), '/' ∉ p → splitSeg p = [p]
  | [], _ => by simp [splitSeg]
  | c :: rest, h => by
    have hc : c ≠ '/' := fun hh => h (hh ▸ List.mem_cons_self c rest)
    have hr : '/' ∉ rest := fun hh => h (List.mem_cons_of_mem c hh)
    simp only [splitSeg, if_neg hc, splitSeg_no_slash_self rest hr]

theorem splitSeg_append : ∀ (a r : PathStr), '/' ∉ a →
    splitSeg (a ++ '/' :: r) = a :: splitSeg r
  | [], r, _ => by simp [splitSeg]
  | c :: a', r, h => by
    have hc : c ≠ '/' := fun hh => h (hh ▸ List.mem_cons_self c a')
    have ha : '/' ∉ a' := fun hh => h (List.mem_cons_of_mem c hh)
    simp only [List.cons_append, splitSeg, if_neg hc, List.append_eq,
      splitSeg_append a' r ha]

theorem joinSegs_cons_of_ne_nil (s : PathStr) (rest : List PathStr) (h : rest ≠ []) :
    joinSegs (s :: rest) = s ++ '/' :: joinSegs rest := by
  cases rest with
  | nil => exact absurd rfl h
  | cons r0 rs => rfl

theorem splitSeg_joinSegs : ∀ (L : List PathStr), L ≠ [] → (∀ s ∈ L, '/' ∉ s) →
    splitSeg (joinSegs L) = L
  | [], h, _ => absurd rfl h
  | [s], _, h => by
    simpa [joinSegs] using splitSeg_no_slash_self s (h s (List.mem_cons_self s []))
  | s :: r0 :: rs, _, h => by
    rw [joinSegs_cons_of_ne_nil s (r0 :: rs) (by simp),
      splitSeg_append s _ (h s (List.mem_cons_self s (r0 :: rs))),
      splitSeg_joinSegs (r0 :: rs) (by simp) (fun x hx => h x (List.mem_cons_of_mem s hx))]

theorem joinSegs_ne_nil (s : PathStr) (rest : List PathStr) (h : s ≠ []) :
    joinSegs (s :: rest) ≠ [] := by
  cases rest with
  | nil => exact h
  | cons r0 rs => simp [joinSegs_cons_of_ne_nil]

theorem joinSegs_ne_dot (s : PathStr) (rest : List PathStr) (hdot : s ≠ ['.'])
    (hnil : s ≠ []) : joinSegs (s :: rest) ≠ ['.'] := by
  cases rest with
  | nil => exact hdot
  | cons r0 rs =>
    rw [joinSegs_cons_of_ne_nil s (r0 :: rs) (by simp)]
    intro heq
    have hlen := congrArg List.length heq
    have : 1 ≤ s.length := List.length_pos.mpr hnil
    simp [List.length_append] at hlen
    omega

theorem isAbsL_cons (c : Char) (p : PathStr) : isAbsL (c :: p) = decide (c = '/') := by
  by_cases hc : c = '/'
  · subst hc; simp [isAbsL]
  · simp only [isAbsL]
    split
    · rename_i heq
      cases heq
      simp at hc
    · simp [hc]

theorem cleanStep_okSeg (rooted : Bool) (acc : List PathStr) (seg : PathStr)
    (hacc : ∀ s ∈ acc, okSeg s) (hseg : '/' ∉ seg) :
    ∀ s ∈ cleanStep rooted acc seg, okSeg s := by
  intro s hs
  unfold cleanStep at hs
  by_cases h1 : seg = []
  · rw [if_pos h1] at hs; exact hacc s hs
  rw [if_neg h1] at hs
  by_cases h2 : seg = ['.']
  · rw [if_pos h2] at hs; exact hacc s hs
  rw [if_neg h2] at hs
  by_cases h3 : seg = ['.', '.']
  · rw [if_pos h3] at hs
    cases acc with
    | nil =>
      have hs' : s ∈ (if rooted = true then ([] : List PathStr) else [['.', '.']]) := hs
      cases rooted with
      | false =>
        simp at hs'
        subst hs'; exact ⟨by simp, by simp⟩
      | true => simp at hs'
    | cons a rest =>
      have hs' : s ∈ (if a = ['.', '.'] then ['.', '.'] :: a :: rest else rest) := hs
      by_cases ha : a = ['.', '.']
      · rw [if_pos ha] at hs'
        rcases List.mem_cons.mp hs' with h | h
        · subst h; exact ⟨by simp, by simp⟩
        · exact hacc s h
      · rw [if_neg ha] at hs'
        exact hacc s (List.mem_cons_of_mem a hs')
  · rw [if_neg h3] at hs
    rcases List.mem_cons.mp hs with h | h
    · subst h; exact ⟨h1, hseg⟩
    · exact hacc s h

theorem foldl_cleanStep_okSeg (rooted : Bool) :
    ∀ (l : List PathStr) (acc : List PathStr), (∀ s ∈ l, '/' ∉ s) →
      (∀ s ∈ acc, okSeg s) → ∀ s ∈ List.foldl (cleanStep rooted) acc l, okSeg s
  | [], acc, _, hacc => by simpa using hacc
  | x :: l, acc, hl, hacc => by
    rw [List.foldl_cons]
    exact foldl_cleanStep_okSeg rooted l (cleanStep rooted acc x)
      (fun s hs => hl s (List.mem_cons_of_mem x hs))
      (cleanStep_okSeg rooted acc x hacc (hl x (List.mem_cons_self x l)))

theorem cleanSegments_okSeg (rooted : Bool) (l : List PathStr)
    (hl : ∀ s ∈ l, '/' ∉ s) : ∀ s ∈ cleanSegments rooted l, okSeg s := by
  intro s hs
  exact foldl_cleanStep_okSeg rooted l [] hl (by simp) s (List.mem_reverse.mp hs)

theorem cleanStep_goodSeg (acc : List PathStr) (seg : PathStr)
    (hacc : ∀ s ∈ acc, goodSeg s) (hseg : '/' ∉ seg) :
    ∀ s ∈ cleanStep true acc seg, goodSeg s := by
  intro s hs
  unfold cleanStep at hs
  by_cases h1 : seg = []
  · rw [if_pos h1] at hs; exact hacc s hs
  rw [if_neg h1] at hs
  by_cases h2 : seg = ['.']
  · rw [if_pos h2] at hs; exact hacc s hs
  rw [if_neg h2] at hs
  by_cases h3 : seg = ['.', '.']
  · rw [if_pos h3] at hs
    cases acc with
    | nil =>
      have hs' : s ∈ (if true = true then ([] : List PathStr) else [['.', '.']]) := hs
      simp at hs'
    | cons a rest =>
      have hs' : s ∈ (if a = ['.', '.'] then ['.', '.'] :: a :: rest else rest) := hs
      have ha : a ≠ ['.', '.'] := (hacc a (List.mem_cons_self a rest)).2.2.1
      rw [if_neg ha] at hs'
      exact hacc s (List.mem_cons_of_mem a hs')
  · rw [if_neg h3] at hs
    rcases List.mem_cons.mp hs with h | h
    · subst h; exact ⟨h1, h2, h3, hseg⟩
    · exact hacc s h

theorem foldl_cleanStep_goodSeg :
    ∀ (l : List PathStr) (acc : List PathStr), (∀ s ∈ l, '/' ∉ s) →
      (∀ s ∈ acc, goodSeg s) → ∀ s ∈ List.foldl (cleanStep true) acc l, goodSeg s
  | [], acc, _, hacc => by simpa using hacc
  | x :: l, acc, hl, hacc => by
    rw [List.foldl_cons]
    exact foldl_cleanStep_goodSeg l (cleanStep true acc x)
      (fun s hs => hl s (List.mem_cons_of_mem x hs))
      (cleanStep_goodSeg acc x hacc (hl x (List.mem_cons_self x l)))

theorem cleanSegments_goodSeg (l : List PathStr) (hl : ∀ s ∈ l, '/' ∉ s) :
    ∀ s ∈ cleanSegments true l, goodSeg s := by
  intro s hs
  exact foldl_cleanStep_goodSeg l [] hl (by simp) s (List.mem_reverse.mp hs)

theorem pathSegsL_goodSeg (p : PathStr) (h : isAbsL p = true) :
    ∀ s ∈ pathSegsL p, goodSeg s := by
  unfold pathSegsL
  rw [h]
  exact cleanSegments_goodSeg (splitSeg p) (mem_splitSeg_no_slash p)

theorem foldl_cleanStep_push_all (rooted : Bool) :
    ∀ (l acc : List PathStr), (∀ s ∈ l, goodSeg s) →
      List.foldl (cleanStep rooted) acc l = l.reverse ++ acc
  | [], acc, _ => by simp
  | x :: l, acc, hl => by
    have hx := hl x (List.mem_cons_self x l)
    have hstep : cleanStep rooted acc x = x :: acc := by
      unfold cleanStep
      rw [if_neg hx.1, if_neg hx.2.1, if_neg hx.2.2.1]
    rw [List.foldl_cons, hstep,
      foldl_cleanStep_push_all rooted l (x :: acc) (fun s hs => hl s (List.mem_cons_of_mem x hs))]
    simp

theorem cleanSegments_of_good (rooted : Bool) (l : List PathStr)
    (hl : ∀ s ∈ l, goodSeg s) : cleanSegments rooted l = l := by
  unfold cleanSegments
  rw [foldl_cleanStep_push_all rooted l [] hl]
  simp

theorem isAbsL_renderPath_true (segs : List PathStr) :
    isAbsL (renderPath true segs) = true := by
  simp [renderPath, isAbsL]

theorem isAbsL_renderPath_false (segs : List PathStr) (h : ∀ s ∈ segs, okSeg s) :
    isAbsL (renderPath false segs) = false := by
  unfold renderPath
  rw [if_neg (by simp)]
  split
  · simp [isAbsL]
  · rename_i hne
    cases segs with
    | nil => exact absurd rfl hne
    | cons s rest =>
      have hs := h s (List.mem_cons_self s rest)
      obtain ⟨c, s2, heq, hc⟩ :
          ∃ c s2, joinSegs (s :: rest) = c :: s2 ∧ c ≠ '/' := by
        obtain ⟨c, s', hseq⟩ : ∃ c s', s = c :: s' := by
          cases s with
          | nil => exact absurd rfl hs.1
          | cons c s' => exact ⟨c, s', rfl⟩
        have hc : c ≠ '/' := fun hh => hs.2 (hseq ▸ hh ▸ List.mem_cons_self c s')
        cases rest with
        | nil => exact ⟨c, s', by simp [joinSegs, hseq], hc⟩
        | cons r0 rs =>
          rw [joinSegs_cons_of_ne_nil s (r0 :: rs) (by simp), hseq]
          exact ⟨c, s' ++ '/' :: joinSegs (r0 :: rs), by simp, hc⟩
      rw [heq, isAbsL_cons]
      simp [hc]

theorem isAbsL_cleanL (p : PathStr) : isAbsL (cleanL p) = isAbsL p := by
  unfold cleanL
  cases h : isAbsL p with
  | true => rw [isAbsL_renderPath_true]
  | false =>
    rw [isAbsL_renderPath_false]
    unfold pathSegsL
    rw [h]
    exact cleanSegments_okSeg false (splitSeg p) (mem_splitSeg_no_slash p)

theorem cleanSegments_cons_nil (l : List PathStr) :
    cleanSegments true ([] :: l) = cleanSegments true l := by
  unfold cleanSegments
  rw [List.foldl_cons]
  rfl

theorem pathSegsL_renderPath_true (segs : List PathStr) (h : ∀ s ∈ segs, goodSeg s) :
    pathSegsL (renderPath true segs) = segs := by
  unfold pathSegsL
  rw [isAbsL_renderPath_true]
  cases segs with
  | nil => decide
  | cons s rest =>
    have hrp : renderPath true (s :: rest) = '/' :: joinSegs (s :: rest) := by
      simp [renderPath]
    rw [hrp]
    have hsplit : splitSeg ('/' :: joinSegs (s :: rest)) = [] :: (s :: rest) := by
      have h1 : splitSeg ('/' :: joinSegs (s :: rest)) = [] :: splitSeg (joinSegs (s :: rest)) := by
        simp [splitSeg]
      rw [h1, splitSeg_joinSegs (s :: rest) (by simp) (fun x hx => (h x hx).2.2.2)]
    rw [hsplit, cleanSegments_cons_nil, cleanSegments_of_good true (s :: rest) h]

theorem pathSegsL_cleanL (p : PathStr) (h : isAbsL p = true) :
    pathSegsL (cleanL p) = pathSegsL p := by
  have : cleanL p = renderPath true (pathSegsL p) := by unfold cleanL; rw [h]
  rw [this, pathSegsL_renderPath_true (pathSegsL p) (pathSegsL_goodSeg p h)]

theorem cleanL_idem_abs (p : PathStr) (h : isAbsL p = true) :
    cleanL (cleanL p) = cleanL p := by
  conv_lhs => rw [show cleanL (cleanL p) = renderPath (isAbsL (cleanL p)) (pathSegsL (cleanL p)) from rfl]
  rw [isAbsL_cleanL, pathSegsL_cleanL p h, h]
  unfold cleanL
  rw [h]

theorem cleanL_abs_eq_render (p : PathStr) (h : isAbsL p = true) :
    cleanL p = '/' :: joinSegs (pathSegsL p) := by
  unfold cleanL
  rw [h]
  simp [renderPath]

theorem joinSegs_good_eq_nil (L : List PathStr) (h : ∀ s ∈ L, goodSeg s)
    (hj : joinSegs L = []) : L = [] := by
  cases L with
  | nil => rfl
  | cons s rest =>
    exact absurd hj (joinSegs_ne_nil s rest (h s (List.mem_cons_self s rest)).1)

theorem cleanL_eq_root_iff (p : PathStr) (h : isAbsL p = true) :
    cleanL p = ['/'] ↔ pathSegsL p = [] := by
  rw [cleanL_abs_eq_render p h]
  constructor
  · intro heq
    have : joinSegs (pathSegsL p) = [] := by
      injection heq
    exact joinSegs_good_eq_nil (pathSegsL p) (pathSegsL_goodSeg p h) this
  · intro heq
    rw [heq]
    rfl

theorem dropCommon_nil_left (b : List PathStr) : dropCommon [] b = ([], b) := by
  cases b <;> rfl

theorem dropCommon_cons_cons (x y : PathStr) (xs ys : List PathStr) :
    dropCommon (x :: xs) (y :: ys) =
      if x = y then dropCommon xs ys else (x :: xs, y :: ys) := rfl

theorem dropCommon_append (a r : List PathStr) : dropCommon a (a ++ r) = ([], r) := by
  induction a with
  | nil => rw [List.nil_append, dropCommon_nil_left]
  | cons x xs ih =>
    show dropCommon (x :: xs) (x :: (xs ++ r)) = ([], r)
    unfold dropCommon
    rw [if_pos rfl]
    exact ih

theorem dropCommon_fst_eq_nil : ∀ (a b : List PathStr),
    (dropCommon a b).1 = [] → b = a ++ (dropCommon a b).2
  | [], b, _ => by rw [dropCommon_nil_left, List.nil_append]
  | x :: xs, [], h => by
    rw [show dropCommon (x :: xs) [] = (x :: xs, []) from rfl] at h
    simp at h
  | x :: xs, y :: ys, h => by
    by_cases hxy : x = y
    · subst hxy
      rw [dropCommon_cons_cons, if_pos rfl] at h ⊢
      rw [List.cons_append, ← dropCommon_fst_eq_nil xs ys h]
    · rw [show dropCommon (x :: xs) (y :: ys) = (x :: xs, y :: ys) from by
        unfold dropCommon; rw [if_neg hxy]] at h
      simp at h

theorem dropCommon_fst_mem : ∀ (a b : List PathStr),
    ∀ s ∈ (dropCommon a b).1, s ∈ a
  | [], b, s => by rw [dropCommon_nil_left]; intro h; simp at h
  | x :: xs, [], s => by
    rw [show dropCommon (x :: xs) [] = (x :: xs, []) from rfl]
    exact fun h => h
  | x :: xs, y :: ys, s => by
    by_cases hxy : x = y
    · subst hxy
      rw [dropCommon_cons_cons, if_pos rfl]
      exact fun h => List.mem_cons_of_mem x (dropCommon_fst_mem xs ys s h)
    · rw [show dropCommon (x :: xs) (y :: ys) = (x :: xs, y :: ys) from by
        unfold dropCommon; rw [if_neg hxy]]
      exact fun h => h

theorem dropCommon_snd_mem : ∀ (a b : List PathStr),
    ∀ s ∈ (dropCommon a b).2, s ∈ b
  | [], b, s => by rw [dropCommon_nil_left]; exact fun h => h
  | x :: xs, [], s => by
    rw [show dropCommon (x :: xs) [] = (x :: xs, []) from rfl]
    intro h; simp at h
  | x :: xs, y :: ys, s => by
    by_cases hxy : x = y
    · subst hxy
      rw [dropCommon_cons_cons, if_pos rfl]
      exact fun h => List.mem_cons_of_mem x (dropCommon_snd_mem xs ys s h)
    · rw [show dropCommon (x :: xs) (y :: ys) = (x :: xs, y :: ys) from by
        unfold dropCommon; rw [if_neg hxy]]
      exact fun h => h

theorem dropCommon_fst_of_isPrefixOf (a b : List PathStr) (h : a <+: b) :
    (dropCommon a b).1 = [] := by
  obtain ⟨r, hr⟩ := h
  rw [← hr, dropCommon_append]

theorem hasDotDot_head_dotdot (rest : List PathStr) :
    hasDotDotPrefixL (joinSegs (['.', '.'] :: rest)) = true := by
  cases rest with
  | nil => decide
  | cons r0 rs =>
    rw [joinSegs_cons_of_ne_nil _ _ (by simp)]
    have hpre : List.isPrefixOf ['.', '.', '/'] ('.' :: '.' :: '/' :: joinSegs (r0 :: rs)) = true :=
      List.isPrefixOf_iff_prefix.mpr ⟨joinSegs (r0 :: rs), rfl⟩
    simp only [hasDotDotPrefixL, List.cons_append, List.nil_append, hpre, Bool.or_true]

theorem hasDotDot_false_of_good (s : PathStr) (rest : List PathStr) (hgood : goodSeg s) :
    hasDotDotPrefixL (joinSegs (s :: rest)) = false := by
  obtain ⟨hnil, hdot, hdd, hsl⟩ := hgood
  simp only [hasDotDotPrefixL, Bool.or_eq_false_iff, decide_eq_false_iff_not]
  constructor
  · cases rest with
    | nil => simpa [joinSegs] using hdd
    | cons r0 rs =>
      rw [joinSegs_cons_of_ne_nil _ _ (by simp)]
      intro heq
      have hm : '/' ∈ s ++ '/' :: joinSegs (r0 :: rs) := by simp
      rw [heq] at hm
      simp at hm
  · rw [Bool.eq_false_iff]
    intro hpre
    obtain ⟨t, htp⟩ := List.isPrefixOf_iff_prefix.mp hpre
    simp only [List.cons_append, List.nil_append] at htp
    cases rest with
    | nil =>
      simp only [joinSegs] at htp
      exact hsl (htp ▸ (by simp : '/' ∈ '.' :: '.' :: '/' :: t))
    | cons r0 rs =>
      rw [joinSegs_cons_of_ne_nil _ _ (by simp)] at htp
      match s, hnil with
      | [c1], _ =>
        simp only [List.cons_append, List.nil_append] at htp
        injection htp with e1 htp'
        injection htp' with e2 _
        exact absurd e2 (by decide)
      | [c1, c2], _ =>
        simp only [List.cons_append, List.nil_append] at htp
        injection htp with e1 htp'
        injection htp' with e2 _
        exact hdd (by rw [← e1, ← e2])
      | c1 :: c2 :: c3 :: s', _ =>
        simp only [List.cons_append] at htp
        injection htp with e1 htp'
        injection htp' with e2 htp''
        injection htp'' with e3 _
        exact hsl (by rw [← e3]; simp)

theorem relL_abs_spec (b₀ t₀ : PathStr) (hb : isAbsL b₀ = true) (ht : isAbsL t₀ = true)
    (hne : cleanL t₀ ≠ cleanL b₀) :
    relL (cleanL b₀) (cleanL t₀) =
      some (joinSegs
        (List.replicate (dropCommon (pathSegsL b₀) (pathSegsL t₀)).1.length ['.', '.'] ++
          (dropCommon (pathSegsL b₀) (pathSegsL t₀)).2)) := by
  have hrel : relL (cleanL b₀) (cleanL t₀) =
      (if cleanL (cleanL t₀) = cleanL (cleanL b₀) then some ['.']
       else if (isAbsL (cleanL (cleanL b₀))) ≠ (isAbsL (cleanL (cleanL t₀))) then none
       else if (dropCommon (pathSegsL (cleanL b₀)) (pathSegsL (cleanL t₀))).1.head?
           = some ['.', '.'] then none
       else some (joinSegs
         (List.replicate (dropCommon (pathSegsL (cleanL b₀)) (pathSegsL (cleanL t₀))).1.length
            ['.', '.'] ++
          (dropCommon (pathSegsL (cleanL b₀)) (pathSegsL (cleanL t₀))).2))) := rfl
  rw [hrel, cleanL_idem_abs b₀ hb, cleanL_idem_abs t₀ ht,
    pathSegsL_cleanL b₀ hb, pathSegsL_cleanL t₀ ht, if_neg hne,
    if_neg (by rw [isAbsL_cleanL, isAbsL_cleanL, hb, ht]; simp)]
  rw [if_neg ?hhead]
  case hhead =>
    intro hh
    have hmem : ['.', '.'] ∈ (dropCommon (pathSegsL b₀) (pathSegsL t₀)).1 := by
      cases hfst : (dropCommon (pathSegsL b₀) (pathSegsL t₀)).1 with
      | nil => rw [hfst] at hh; simp at hh
      | cons a arest =>
        rw [hfst] at hh
        simp only [List.head?_cons, Option.some.injEq] at hh
        rw [hh]
        exact List.mem_cons_self _ _
    have hmem' := dropCommon_fst_mem (pathSegsL b₀) (pathSegsL t₀) _ hmem
    exact (pathSegsL_goodSeg b₀ hb _ hmem').2.2.1 rfl

theorem removeFilesProceeds_eq (osTmpDir tempDirRaw : PathStr) :
    removeFilesProceeds osTmpDir tempDirRaw =
      (if tempDirRaw = [] then false
       else if ¬ isAbsL (cleanL tempDirRaw) then false
       else if cleanL tempDirRaw = ['/'] then false
       else if cleanL tempDirRaw = cleanL osTmpDir then false
       else match relL (cleanL osTmpDir) (cleanL tempDirRaw) with
         | none => false
         | some r =>
           if r = ['.'] then false
           else if hasDotDotPrefixL r then false
           else true) := rfl

theorem strictlyUnder_eq_true_iff (osTmpDir tempDirRaw : PathStr) :
    strictlyUnderTempRoot osTmpDir tempDirRaw = true ↔
      isAbsL (cleanL tempDirRaw) = true ∧
      pathSegsL osTmpDir <+: pathSegsL tempDirRaw ∧
      cleanL tempDirRaw ≠ cleanL osTmpDir := by
  simp [strictlyUnderTempRoot, Bool.and_eq_true, List.isPrefixOf_iff_prefix, and_assoc]

/-- C1: the guarded removal operation refuses (a silent no-op) for the
empty path, relative paths, the filesystem root, the platform temp root
and anything outside the platform temp root, and reaches its recursive
delete exactly when the path is non-empty and its normalized form is
absolute and strictly nested under the platform temp root. -/
theorem claim_C1_deletion_guard (osTmpDir tempDirRaw : PathStr)
    (habs : isAbsL osTmpDir = true) :
    removeFilesProceeds osTmpDir tempDirRaw = true ↔
      (tempDirRaw ≠ [] ∧ strictlyUnderTempRoot osTmpDir tempDirRaw = true) := by
  rw [removeFilesProceeds_eq, strictlyUnder_eq_true_iff]
  by_cases h0 : tempDirRaw = []
  · rw [if_pos h0]
    exact iff_of_false (by simp) (fun h => h.1 h0)
  rw [if_neg h0]
  by_cases h1 : isAbsL (cleanL tempDirRaw) = true
  case neg =>
    rw [if_pos h1]
    exact iff_of_false (by simp) (by rintro ⟨-, hcon, -, -⟩; exact h1 hcon)
  case pos =>
    rw [if_neg (by simpa using h1)]
    have habs_t : isAbsL tempDirRaw = true := by rw [← isAbsL_cleanL]; exact h1
    by_cases h2 : cleanL tempDirRaw = ['/']
    · rw [if_pos h2]
      refine iff_of_false (by simp) ?_
      rintro ⟨-, -, hpre, hne⟩
      have hT : pathSegsL tempDirRaw = [] := (cleanL_eq_root_iff tempDirRaw habs_t).mp h2
      rw [hT] at hpre
      have hB : pathSegsL osTmpDir = [] := List.prefix_nil.mp hpre
      have hroot : cleanL osTmpDir = ['/'] := by
        rw [cleanL_abs_eq_render osTmpDir habs, hB]
        rfl
      exact hne (by rw [h2, hroot])
    rw [if_neg h2]
    by_cases h3 : cleanL tempDirRaw = cleanL osTmpDir
    · rw [if_pos h3]
      exact iff_of_false (by simp) (by rintro ⟨-, -, -, hne⟩; exact hne h3)
    rw [if_neg h3]
    rw [relL_abs_spec osTmpDir tempDirRaw habs habs_t h3]
    cases hfst : (dropCommon (pathSegsL osTmpDir) (pathSegsL tempDirRaw)).1 with
    | nil =>
      have hTeq : pathSegsL tempDirRaw =
          pathSegsL osTmpDir ++ (dropCommon (pathSegsL osTmpDir) (pathSegsL tempDirRaw)).2 :=
        dropCommon_fst_eq_nil _ _ hfst
      cases hsnd : (dropCommon (pathSegsL osTmpDir) (pathSegsL tempDirRaw)).2 with
      | nil =>
        exfalso
        apply h3
        rw [cleanL_abs_eq_render tempDirRaw habs_t, cleanL_abs_eq_render osTmpDir habs]
        rw [hTeq, hsnd, List.append_nil]
      | cons s rest2 =>
        have hsmem : s ∈ pathSegsL tempDirRaw :=
          dropCommon_snd_mem _ _ s (by rw [hsnd]; exact List.mem_cons_self s rest2)
        have hsgood : goodSeg s := pathSegsL_goodSeg tempDirRaw habs_t s hsmem
        have hpre : pathSegsL osTmpDir <+: pathSegsL tempDirRaw := by
          refine ⟨s :: rest2, ?_⟩
          rw [← hsnd, ← hTeq]
        simp only [List.length_nil, List.replicate, List.nil_append]
        rw [if_neg (joinSegs_ne_dot s rest2 hsgood.2.1 hsgood.1),
          if_neg (by rw [hasDotDot_false_of_good s rest2 hsgood]; simp)]
        exact iff_of_true rfl ⟨h0, h1, hpre, h3⟩
    | cons a arest =>
      simp only [List.length_cons, List.replicate_succ, List.cons_append]
      rw [if_neg (joinSegs_ne_dot _ _ (by decide) (by decide)),
        if_pos (by simp [hasDotDot_head_dotdot])]
      refine iff_of_false (by simp) ?_
      rintro ⟨-, -, hpre, -⟩
      have hnil := dropCommon_fst_of_isPrefixOf _ _ hpre
      rw [hfst] at hnil
      simp at hnil

/-- Witness for `claim_C1_deletion_guard` at `/tmp` and a typical
generated temp directory. -/
theorem claim_C1_deletion_guard_witness :
    isAbsL "/tmp".data = true ∧
      (removeFilesProceeds "/tmp".data "/tmp/my-test-7".data = true ↔
        ("/tmp/my-test-7".data ≠ [] ∧
          strictlyUnderTempRoot "/tmp".data "/tmp/my-test-7".data = true)) :=
  ⟨by decide, claim_C1_deletion_guard "/tmp".data "/tmp/my-test-7".data (by decide)⟩

/-!
## Materialization lemmas and the remaining claims
-/

theorem createFile_st_fields (st : FileState) (cf : Option ContentFunc) :
    (createFile st cf).1.filepath = st.filepath ∧ (createFile st cf).1.name = st.name := by
  unfold createFile
  split
  · exact ⟨rfl, rfl⟩
  · cases cf <;> simp

theorem fileCreate_filepath (pd : PathStr) (ff : FileFix) :
    (fileCreate pd ff).1.filepath = joinL pd ff.name := by
  unfold fileCreate
  rw [(createFile_st_fields _ _).1]
  rfl

theorem fileCreate_name (pd : PathStr) (ff : FileFix) :
    (fileCreate pd ff).1.name = ff.name := by
  unfold fileCreate
  rw [(createFile_st_fields _ _).2]
  rfl

theorem createFiles_inv (d r : PathStr) (fs : List FileFix) :
    ((createFiles d r fs).1).all (mfileInv d r) = true := by
  induction fs with
  | nil => rfl
  | cons f fs ih =>
    simp only [createFiles, List.all_cons, Bool.and_eq_true]
    refine ⟨?_, ih⟩
    simp [mfileInv, fileCreate_filepath, fileCreate_name]

mutual
theorem createDir_inv (pd pr : PathStr) (n : DirNode) :
    mdirInv pd pr (createDir pd pr n).1 = true := by
  match n with
  | .node isRepo name perms mtime files children =>
    have hch := createChildren_inv (joinL pd name) (joinL pr name) children
    simp [createDir, mdirInv, createFiles_inv, hch]

theorem createChildren_inv (d r : PathStr) (l : List DirNode) :
    mdirsInv d r (createChildren d r l).1 = true := by
  match l with
  | [] => rfl
  | c :: cs =>
    have h1 := createDir_inv d r c
    have h2 := createChildren_inv d r cs
    simp [createChildren, mdirsInv, h1, h2]
end

/-- C2: in every materialized tree, each node's resolved path is its
parent's resolved path joined with its own name and each node's relative
path is its parent's relative path joined with its name — for directory
and repository nodes and file leaves alike — with the root's relative
path being the identity path `.`. -/
theorem claim_C2_path_invariant (osTempDir : PathStr) (rf : RootFix) :
    rootRelPath = ['.'] ∧
    ((rootCreate osTempDir rf).1.files).all (mfileInv osTempDir rootRelPath) = true ∧
    mdirsInv osTempDir rootRelPath (rootCreate osTempDir rf).1.children = true := by
  refine ⟨rfl, ?_, ?_⟩
  · simpa [rootCreate] using createFiles_inv osTempDir rootRelPath rf.files
  · simpa [rootCreate] using createChildren_inv osTempDir rootRelPath rf.children

/-- C3: every resolved-path accessor that guards itself with
`ensureCreated` (`Dir`, `TempDir`, `MakeDir` and the gates at the top of
`Cleanup` and `RemoveFiles`, plus `FileFixture.ensureCreated`) aborts the
current test with `t.Fatalf` when invoked before the fixture has been
created, instead of silently returning an empty path. -/
theorem claim_C3_access_before_create_is_fatal (r : RootAccess) (d : DirAccess)
    (p : RepoAccess) (f : FileState) (fp : PathStr) :
    rootDirAcc { r with created := false } = .error (.fatal r.dirPrefixName) ∧
    rootTempDirAcc { r with created := false } = .error (.fatal r.dirPrefixName) ∧
    rootCleanupGate { r with created := false } = .error (.fatal r.dirPrefixName) ∧
    rootRemoveFilesGate { r with created := false } = .error (.fatal r.dirPrefixName) ∧
    dirDirAcc { d with created := false } = .error (.fatal d.name) ∧
    dirMakeDirAcc { d with created := false } fp = .error (.fatal d.name) ∧
    repoMakeDirAcc { p with created := false } fp = .error (.fatal p.name) ∧
    fileEnsureCreated { f with created := false } = .error (.fatal f.name) :=
  ⟨rfl, rfl, rfl, rfl, rfl, rfl, rfl, rfl⟩

/-- C5: a file leaf marked `DoNotCreate` produces no filesystem
operation at all during materialization, yet its resolved path is still
assigned as the parent's resolved path joined with its name. -/
theorem claim_C5_do_not_create (parentDir : PathStr) (ff : FileFix) :
    (fileCreate parentDir { ff with doNotCreate := true }).2 = [] ∧
    (fileCreate parentDir { ff with doNotCreate := true }).1.filepath =
      joinL parentDir ff.name := by
  constructor
  · simp [fileCreate, createFile, resolvedFileState]
  · rw [fileCreate_filepath]

/-- C6: a content function is invoked on the leaf's state only after the
leaf's `Filepath` field holds the resolved path (parent joined with the
leaf's name), and the string it returns is exactly the content written
to the file. -/
theorem claim_C6_content_func_sees_resolved_state (parentDir : PathStr) (ff : FileFix)
    (f : ContentFunc) :
    (resolvedFileState parentDir { ff with contentFunc := some f, doNotCreate := false }).filepath
      = joinL parentDir ff.name ∧
    (fileCreate parentDir { ff with contentFunc := some f, doNotCreate := false }).1.content
      = f (resolvedFileState parentDir { ff with contentFunc := some f, doNotCreate := false }) ∧
    FsOp.writeFile (joinL parentDir ff.name)
        (f (resolvedFileState parentDir { ff with contentFunc := some f, doNotCreate := false }))
        ff.permissions
      ∈ (fileCreate parentDir { ff with contentFunc := some f, doNotCreate := false }).2 := by
  refine ⟨rfl, ?_, ?_⟩
  · simp [fileCreate, createFile, resolvedFileState]
  · simp [fileCreate, createFile, resolvedFileState]

/-- C8: a failing recursive removal in either cleanup path is recorded
as a test failure (`t.Errorf` for the `Cleanup` closure, `t.Fatalf` —
which stops only the current test — for `RemoveFiles`) and neither path
can panic or abort the test process. -/
theorem claim_C8_cleanup_failure_never_panics (osTmpDir tempDirRaw : PathStr) (b : Bool) :
    cleanupFuncRun true = .failedContinue ∧
    cleanupFuncRun false = .passed ∧
    cleanupFuncRun b ≠ .panicked ∧
    cleanupFuncRun b ≠ .processAborted ∧
    removeFilesRun osTmpDir tempDirRaw b =
      (if removeFilesProceeds osTmpDir tempDirRaw && b then .failedStopTest else .passed) ∧
    removeFilesRun osTmpDir tempDirRaw b ≠ .panicked ∧
    removeFilesRun osTmpDir tempDirRaw b ≠ .processAborted := by
  refine ⟨rfl, rfl, ?_, ?_, rfl, ?_, ?_⟩
  · cases b <;> simp [cleanupFuncRun]
  · cases b <;> simp [cleanupFuncRun]
  · unfold removeFilesRun; split <;> simp
  · unfold removeFilesRun; split <;> simp

theorem newFileFixture_fields (name : PathStr) (args : FileFixtureArgs) :
    newFileFixture name (some args) =
      { name := name
        content := args.content
        contentFunc := args.contentFunc
        permissions := if args.permissions = 0 then 420 else args.permissions
        dirPermissions := if args.dirPermissions = 0 then 493 else args.dirPermissions
        modifiedTime := args.modifiedTime
        doNotCreate := args.doNotCreate } := by
  unfold newFileFixture
  by_cases hp : args.permissions = 0 <;> by_cases hd : args.dirPermissions = 0 <;>
    simp [hp, hd]

/-- C9: constructing a file fixture with both a literal content string
and a content function is accepted (no rejection), and at creation the
function result silently overwrites the literal: the bytes written are
the function's output. -/
theorem claim_C9_content_func_overrides_literal (name parentDir c : PathStr)
    (f : ContentFunc) (args : FileFixtureArgs) :
    (newFileFixture name (some { args with content := c, contentFunc := some f })).content
      = c ∧
    (newFileFixture name (some { args with content := c, contentFunc := some f })).contentFunc
      = some f ∧
    (fileCreate parentDir
        { newFileFixture name (some { args with content := c, contentFunc := some f }) with
            doNotCreate := false }).1.content
      = f (resolvedFileState parentDir
            { newFileFixture name (some { args with content := c, contentFunc := some f }) with
                doNotCreate := false }) ∧
    FsOp.writeFile
        (joinL parentDir name)
        (f (resolvedFileState parentDir
            { newFileFixture name (some { args with content := c, contentFunc := some f }) with
                doNotCreate := false }))
        (newFileFixture name
          (some { args with content := c, contentFunc := some f })).permissions
      ∈ (fileCreate parentDir
          { newFileFixture name (some { args with content := c, contentFunc := some f }) with
              doNotCreate := false }).2 := by
  rw [newFileFixture_fields]
  refine ⟨rfl, rfl, ?_, ?_⟩
  · simp [fileCreate, createFile, resolvedFileState]
  · simp [fileCreate, createFile, resolvedFileState]

/-- C10: the builder phase is total and purely in-memory — for every
prefix string, file name and permission value (zero, negative or
out-of-range alike), `NewRootFixture` and `AddFileFixture` return a
fixture handle, a `nil` args pointer gets the defaults 0644/0755, and no
filesystem operation is produced. -/
theorem claim_C10_builders_total_pure (p name : PathStr) (rf : RootFix)
    (args : FileFixtureArgs) :
    newRootFixture p = { dirPrefixName := p, files := [], children := [] } ∧
    (addFileFixture rf name none).1 =
      { rf with files := rf.files ++ [newFileFixture name none] } ∧
    (addFileFixture rf name none).2 = newFileFixture name none ∧
    (newFileFixture name none).permissions = 420 ∧
    (newFileFixture name none).dirPermissions = 493 ∧
    (addFileFixture rf name (some args)).1 =
      { rf with files := rf.files ++ [newFileFixture name (some args)] } ∧
    (addFileFixture rf name (some args)).2 = newFileFixture name (some args) ∧
    (newFileFixture name (some args)).name = name ∧
    (newFileFixture name (some args)).permissions =
      (if args.permissions = 0 then 420 else args.permissions) ∧
    (newFileFixture name (some args)).dirPermissions =
      (if args.dirPermissions = 0 then 493 else args.dirPermissions) := by
  refine ⟨rfl, rfl, rfl, rfl, rfl, rfl, rfl, ?_, ?_, ?_⟩ <;>
    rw [newFileFixture_fields]

/-- C7 counterexample: the root fixture walks its child fixtures before
its root-level file fixtures, so a root with one file and one child
directory does not satisfy the claimed files-then-children order. -/
theorem claim_C7_cex_root_children_first :
    ¬ rootFilesThenChildren "/tmp/my-test-1".data cexRoot := by decide

/-- C7 amended: a directory or repository node creates its own
directory, then its files (in declared order), then its children (with
the repo marker last); the root node instead creates its temporary
directory, then its children, then its root-level files.  In every case
a node's files and children are processed only after the node's own
directory-creation operation. -/
theorem claim_C7_amended_per_node_order (pd pr osTempDir : PathStr) (isRepo : Bool)
    (name : PathStr) (perms : Int) (mtime : Nat) (files : List FileFix)
    (children : List DirNode) (rf : RootFix) :
    (createDir pd pr (.node isRepo name perms mtime files children)).2 =
      (if perms = 0 then [FsOp.report (joinL pd name)] else []) ++
        [FsOp.mkdirAll (joinL pd name) perms] ++
        (createFiles (joinL pd name) (joinL pr name) files).2 ++
        (createChildren (joinL pd name) (joinL pr name) children).2 ++
        (if isRepo then [FsOp.mkdirAll (joinL (joinL pd name) gitSeg) 493] else []) ∧
    (rootCreate osTempDir rf).2 =
      FsOp.mkdirTemp (rf.dirPrefixName ++ "-*".data) ::
        ((createChildren osTempDir rootRelPath rf.children).2 ++
         (createFiles osTempDir rootRelPath rf.files).2) := by
  constructor
  · simp [createDir]
  · simp [rootCreate]

/-- C4 counterexample: for a repository node holding one file, the
`.git` marker creation is not the operation immediately following the
repository directory's creation (the file operations come in between),
even though the marker is created. -/
theorem claim_C4_cex_marker_not_immediate :
    immediatelyAfter (FsOp.mkdirAll "/tmp/T/r".data 493)
        (FsOp.mkdirAll "/tmp/T/r/.git".data 493)
        (createDir "/tmp/T".data rootRelPath cexRepo).2 = false ∧
    FsOp.mkdirAll "/tmp/T/r/.git".data 493 ∈
      (createDir "/tmp/T".data rootRelPath cexRepo).2 := by decide

/-- C4 amended: every repository node's materialization trace ends with
the creation of the `.git` marker immediately under the node's own
resolved path, with permissions `0755`, after the repository directory
itself and its files and children have been created; no marker operation
exists outside materialization, the builder phase being pure. -/
theorem claim_C4_amended_marker_after_subtree (pd pr name : PathStr) (perms : Int)
    (mtime : Nat) (files : List FileFix) (children : List DirNode) :
    (createDir pd pr (.node true name perms mtime files children)).2 =
      ((if perms = 0 then [FsOp.report (joinL pd name)] else []) ++
        [FsOp.mkdirAll (joinL pd name) perms] ++
        (createFiles (joinL pd name) (joinL pr name) files).2 ++
        (createChildren (joinL pd name) (joinL pr name) children).2) ++
        [FsOp.mkdirAll (joinL (joinL pd name) gitSeg) 493] ∧
    FsOp.mkdirAll (joinL (joinL pd name) gitSeg) 493 ∈
      (createDir pd pr (.node true name perms mtime files children)).2 := by
  constructor
  · simp [createDir]
  · simp [createDir]

end Fsfix
